import Mathlib

/-!
Verification of the MQTT dashboard core (`streamlitprojetfinal.py`).

The development shallowly embeds the pieces of the program that the
specification talks about:

* `dictUpdate` / `dictGet` — Python `dict` assignment and lookup, modelled
  as an insertion-ordered association list (assignment replaces the value
  in place when the key exists, otherwise appends at the end);
* `Heap`, `MqttState` — the `MqttState` class.  Because the spec makes
  aliasing claims (`snapshot` returns an *independent copy*), the two
  dictionaries `self.data` and `self.last_ts` live in an explicit heap of
  addresses, and `dict(...)` copies allocate fresh addresses;
* `MqttState.put`, `MqttState.set_connected`, `MqttState.set_error`,
  `MqttState.snapshot` — the four methods.  Every method body runs under
  `self.lock`, so a concurrent execution interleaves whole method calls;
  sequences of operations model such interleavings;
* the rolling chart history `st.session_state["history"]` with its
  `[-MAX_POINTS:]` trimming;
* `to_float` / `to_int` — `float(x)` resp. `int(float(x))` guarded by
  `except Exception: return None`;
* `on_connect` / `on_message` — the client callbacks.

Timestamps (`datetime.now()`) are abstracted as naturals supplied by the
caller; payload bytes are lists of naturals `< 256`.
-/

set_option autoImplicit false

universe u

/-- Python dict assignment `d[k] = v`: if `k` is already a key its value is
replaced in place (insertion order kept), otherwise the pair is appended. -/
def dictUpdate {V : Type u} : List (String × V) → String → V → List (String × V)
  | [], k, v => [(k, v)]
  | (k', v') :: rest, k, v =>
    if k' = k then (k, v) :: rest else (k', v') :: dictUpdate rest k v

/-- Python dict lookup `d.get(k)`: the value stored for key `k`, if any. -/
def dictGet {V : Type u} : List (String × V) → String → Option V
  | [], _ => none
  | (k', v') :: rest, k => if k' = k then some v' else dictGet rest k

/-- The keys of a dict, in insertion order. -/
def dictKeys {V : Type u} (d : List (String × V)) : List String :=
  d.map Prod.fst

/-- Pointwise update of a heap function. -/
def updAt {V : Type u} (f : Nat → V) (a : Nat) (v : V) : Nat → V :=
  fun a' => if a' = a then v else f a'

/-- The heap holding all payload dictionaries (`self.data` and its
`snapshot` copies) and all timestamp dictionaries (`self.last_ts` and its
copies).  `next` is the next fresh address. -/
structure Heap where
  payloadH : Nat → List (String × String)
  tsH : Nat → List (String × Nat)
  next : Nat

/-- The scalar fields of a `MqttState` object, with the two dictionaries
referred to by heap address. -/
structure MqttState where
  dataAddr : Nat
  tsAddr : Nat
  connected : Bool
  lastError : Option String

/-- `MqttState.__init__`: allocates two fresh empty dicts, `connected =
False`, `last_error = None`. -/
def MqttState.init (h : Heap) : Heap × MqttState :=
  ({ h with
      payloadH := updAt h.payloadH h.next []
      tsH := updAt h.tsH (h.next + 1) []
      next := h.next + 2 },
   { dataAddr := h.next, tsAddr := h.next + 1,
     connected := false, lastError := none })

/-- `set_connected(v)`. -/
def MqttState.set_connected (v : Bool) : Heap × MqttState → Heap × MqttState
  | (h, st) => (h, { st with connected := v })

/-- `set_error(err)`. -/
def MqttState.set_error (err : String) : Heap × MqttState → Heap × MqttState
  | (h, st) => (h, { st with lastError := some err })

/-- `put(topic, payload)`: mutates the two dictionaries in place at their
heap addresses; `now` stands for `datetime.now()`. -/
def MqttState.put (now : Nat) (topic payload : String) :
    Heap × MqttState → Heap × MqttState
  | (h, st) =>
    ({ h with
        payloadH := updAt h.payloadH st.dataAddr
          (dictUpdate (h.payloadH st.dataAddr) topic payload)
        tsH := updAt h.tsH st.tsAddr
          (dictUpdate (h.tsH st.tsAddr) topic now) },
     st)

/-- The value returned by `snapshot()`: two freshly allocated dict copies
(referred to by address) plus the two scalars copied by value. -/
structure Snapshot where
  dataAddr : Nat
  tsAddr : Nat
  connected : Bool
  lastError : Option String

/-- `snapshot()`: `return dict(self.data), dict(self.last_ts),
self.connected, self.last_error` — the two `dict(...)` calls copy the
current contents into fresh heap cells. -/
def MqttState.snapshot : Heap × MqttState → Heap × Snapshot
  | (h, st) =>
    ({ h with
        payloadH := updAt h.payloadH h.next (h.payloadH st.dataAddr)
        tsH := updAt h.tsH (h.next + 1) (h.tsH st.tsAddr)
        next := h.next + 2 },
     { dataAddr := h.next, tsAddr := h.next + 1,
       connected := st.connected, lastError := st.lastError })

/-- The store's current payload dict contents. -/
def storeData (hst : Heap × MqttState) : List (String × String) :=
  hst.1.payloadH hst.2.dataAddr

/-- The store's current timestamp dict contents. -/
def storeTs (hst : Heap × MqttState) : List (String × Nat) :=
  hst.1.tsH hst.2.tsAddr

/-- The payload dict contents of a snapshot copy, read in a given heap. -/
def snapData (h : Heap) (s : Snapshot) : List (String × String) :=
  h.payloadH s.dataAddr

/-- The timestamp dict contents of a snapshot copy, read in a given heap. -/
def snapTs (h : Heap) (s : Snapshot) : List (String × Nat) :=
  h.tsH s.tsAddr

/-- The store's addresses are allocated (below `next`). -/
def wfState (hst : Heap × MqttState) : Prop :=
  hst.2.dataAddr < hst.1.next ∧ hst.2.tsAddr < hst.1.next

/-- A mutating store call: `put`, `set_connected` or `set_error`. -/
inductive StoreOp where
  | put (now : Nat) (topic payload : String)
  | set_connected (v : Bool)
  | set_error (err : String)

/-- Run one mutating call. -/
def applyOp (op : StoreOp) (hst : Heap × MqttState) : Heap × MqttState :=
  match op with
  | .put now t p => MqttState.put now t p hst
  | .set_connected v => MqttState.set_connected v hst
  | .set_error e => MqttState.set_error e hst

/-- Run a sequence of mutating calls, oldest first. -/
def applyOps (ops : List StoreOp) (hst : Heap × MqttState) : Heap × MqttState :=
  ops.foldl (fun s op => applyOp op s) hst

/-- Run a sequence of `put(topic, payload)` calls given as
`(now, topic, payload)` triples, oldest first. -/
def applyPuts (ps : List (Nat × String × String)) (hst : Heap × MqttState) :
    Heap × MqttState :=
  ps.foldl (fun s q => MqttState.put q.1 q.2.1 q.2.2 s) hst

/-- The last `put` among `ps` whose topic is `t`, if any (the whole
`(now, topic, payload)` triple, so payload and timestamp stay paired). -/
def lastPutEntry (t : String) :
    List (Nat × String × String) → Option (Nat × String × String)
  | [] => none
  | q :: ps =>
    match lastPutEntry t ps with
    | some r => some r
    | none => if q.2.1 = t then some q else none

/-- Any store call, `snapshot` included (its returned copy is dropped). -/
inductive StoreOpFull where
  | put (now : Nat) (topic payload : String)
  | set_connected (v : Bool)
  | set_error (err : String)
  | snapshot

/-- Run one store call. -/
def applyOpFull (op : StoreOpFull) (hst : Heap × MqttState) :
    Heap × MqttState :=
  match op with
  | .put now t p => MqttState.put now t p hst
  | .set_connected v => MqttState.set_connected v hst
  | .set_error e => MqttState.set_error e hst
  | .snapshot => ((MqttState.snapshot hst).1, hst.2)

/-- Run a sequence of store calls, oldest first. -/
def applyOpsFull (ops : List StoreOpFull) (hst : Heap × MqttState) :
    Heap × MqttState :=
  ops.foldl (fun s op => applyOpFull op s) hst

/-- The invariant C9 is proved through: well-formed addresses plus agreeing
key lists of the two dicts. -/
def storeInv (hst : Heap × MqttState) : Prop :=
  wfState hst ∧ dictKeys (storeData hst) = dictKeys (storeTs hst)

/-- A heap in which addresses 0 and 1 are allocated. -/
def demoHeap : Heap := ⟨fun _ => [], fun _ => [], 2⟩

/-- A store whose dicts live at addresses 0 and 1 of `demoHeap`. -/
def demoState : MqttState := ⟨0, 1, false, none⟩

/-- `MAX_POINTS = 200  # points gardés pour les graphes`. -/
def MAX_POINTS : Nat := 200

/-- Python `l[-n:]` for `n > 0`: the last `n` elements (all of `l` when
`l` is shorter than `n`). -/
def takeLast {α : Type u} (n : Nat) (l : List α) : List α :=
  l.drop (l.length - n)

/-- One entry of `st.session_state["history"]`:
`{"time": now, "temperature": ..., "luminosity": ...}` where the last two
come out of `to_float` / `to_int` and may be missing. -/
structure HistoryPoint where
  time : Nat
  temperature : Option ℚ
  luminosity : Option Int

/-- `st.session_state["history"].append({...})` followed by
`st.session_state["history"] = st.session_state["history"][-MAX_POINTS:]`. -/
def appendHistory (hist : List HistoryPoint) (p : HistoryPoint) :
    List HistoryPoint :=
  takeLast MAX_POINTS (hist ++ [p])

/-- The numeric value of a digit string, most significant digit first. -/
def digitsToNat (ds : List Char) : Nat :=
  ds.foldl (fun n c => 10 * n + (c.toNat - 48)) 0

/-- Every character is an ASCII digit. -/
def allDigits (ds : List Char) : Bool :=
  ds.all (fun c => c.isDigit)

/-- The whitespace `str.strip()` removes before `float()` parses. -/
def pySpace (c : Char) : Bool :=
  c = ' ' || c = '\t' || c = '\n' || c = '\r' || c = '\x0b' || c = '\x0c'

/-- `s.strip()` on a character list: drop whitespace at both ends. -/
def stripChars (cs : List Char) : List Char :=
  ((cs.dropWhile pySpace).reverse.dropWhile pySpace).reverse

/-- An optional leading sign; returns (isNegative, remainder). -/
def parseSign : List Char → Bool × List Char
  | '+' :: cs => (false, cs)
  | '-' :: cs => (true, cs)
  | cs => (false, cs)

/-- Split at the first `.` if any. -/
def splitAtDot (cs : List Char) : List Char × Option (List Char) :=
  match cs.span (fun c => c != '.') with
  | (before, []) => (before, none)
  | (before, _ :: after) => (before, some after)

/-- Split at the first `e`/`E` if any. -/
def splitExp (cs : List Char) : List Char × Option (List Char) :=
  match cs.span (fun c => c != 'e' && c != 'E') with
  | (m, []) => (m, none)
  | (m, _ :: rest) => (m, some rest)

/-- The unsigned mantissa `digits [. digits]`: at least one digit overall,
nothing but digits and at most the one dot. -/
def parseMantissa (cs : List Char) : Option ℚ :=
  match splitAtDot cs with
  | (ip, none) =>
    if ip.isEmpty then none
    else if allDigits ip then some ((digitsToNat ip : ℚ)) else none
  | (ip, some f) =>
    if ip.isEmpty && f.isEmpty then none
    else if allDigits ip && allDigits f then
      some ((digitsToNat ip : ℚ) + (digitsToNat f : ℚ) / (10 : ℚ) ^ f.length)
    else none

/-- The exponent after `e`/`E`: optional sign then at least one digit. -/
def parseExpPart (cs : List Char) : Option ℤ :=
  match parseSign cs with
  | (neg, ds) =>
    if ds.isEmpty then none
    else if allDigits ds then
      some (if neg then -(digitsToNat ds : ℤ) else (digitsToNat ds : ℤ))
    else none

/-- Python `float(s)` on the finite-decimal fragment it accepts:
surrounding whitespace stripped, optional sign, decimal digits with at most
one `.`, optional `e`/`E` exponent; anything else (in particular a comma)
raises, modelled as `none`.  (`inf`/`nan` literals and `_` digit
separators, which the claims never touch, are outside the model and also
map to `none`.) -/
def pyFloat (s : String) : Option ℚ :=
  match parseSign (stripChars s.data) with
  | (neg, cs1) =>
    match splitExp cs1 with
    | (mcs, ecs) =>
      match parseMantissa mcs with
      | none => none
      | some m =>
        let signed : ℚ := if neg then -m else m
        match ecs with
        | none => some signed
        | some e =>
          match parseExpPart e with
          | none => none
          | some z => some (signed * (10 : ℚ) ^ z)

/-- `to_float(x)`: `float(x)` with every exception turned into `None`.
The argument is the optional string `data.get(topic)`; `float(None)`
raises `TypeError`, hence `none ↦ none`. -/
def to_float (x : Option String) : Option ℚ :=
  match x with
  | none => none
  | some s => pyFloat s

/-- Truncation toward zero, the semantics of Python `int()` on a float. -/
def ratTrunc (q : ℚ) : ℤ :=
  if 0 ≤ q then q.floor else -((-q).floor)

/-- `to_int(x)`: `int(float(x))` with every exception turned into `None`. -/
def to_int (x : Option String) : Option ℤ :=
  (to_float x).map ratTrunc

/-- The candidate topics the dashboard tries, in order, for luminosity. -/
def luminosityCandidates : List String :=
  ["esp32/sensors/luminosity", "esp32_1/luminosity", "esp32_1/ldr"]

/-- The `for candidate_topic in [...]` loop: at the first candidate present
in `data`, set `luminosity = to_int(data.get(candidate_topic))` and break
(the later `capteur/data` JSON fallback is outside this model). -/
def luminosityFromTopics (data : List (String × String)) : Option ℤ :=
  match luminosityCandidates.find? (fun t => (dictGet data t).isSome) with
  | some t => to_int (dictGet data t)
  | none => none

/-- U+FFFD, the replacement character. -/
def repChar : Char := Char.ofNat 0xFFFD

/-- A UTF-8 continuation byte `0x80..0xBF`. -/
def contByte (b : Nat) : Bool :=
  0x80 ≤ b && b ≤ 0xBF

/-- `bytes.decode("utf-8", errors="replace")`: total decoding where every
maximal invalid subpart becomes one U+FFFD, per the usual replacement
policy (truncated sequences consume their valid prefix; an invalid byte is
not consumed by the failed sequence). -/
def utf8DecodeReplace : List Nat → List Char
  | [] => []
  | b :: rest =>
    if b < 0x80 then Char.ofNat b :: utf8DecodeReplace rest
    else if b < 0xC2 then repChar :: utf8DecodeReplace rest
    else if b ≤ 0xDF then
      match rest with
      | [] => [repChar]
      | c1 :: rest1 =>
        if contByte c1 then
          Char.ofNat ((b - 0xC0) * 0x40 + (c1 - 0x80))
            :: utf8DecodeReplace rest1
        else repChar :: utf8DecodeReplace (c1 :: rest1)
    else if b ≤ 0xEF then
      match rest with
      | [] => [repChar]
      | c1 :: rest1 =>
        if (if b = 0xE0 then 0xA0 else 0x80) ≤ c1 ∧
            c1 ≤ (if b = 0xED then 0x9F else 0xBF) then
          match rest1 with
          | [] => [repChar]
          | c2 :: rest2 =>
            if contByte c2 then
              Char.ofNat ((b - 0xE0) * 0x1000 + (c1 - 0x80) * 0x40
                  + (c2 - 0x80))
                :: utf8DecodeReplace rest2
            else repChar :: utf8DecodeReplace (c2 :: rest2)
        else repChar :: utf8DecodeReplace (c1 :: rest1)
    else if b ≤ 0xF4 then
      match rest with
      | [] => [repChar]
      | c1 :: rest1 =>
        if (if b = 0xF0 then 0x90 else 0x80) ≤ c1 ∧
            c1 ≤ (if b = 0xF4 then 0x8F else 0xBF) then
          match rest1 with
          | [] => [repChar]
          | c2 :: rest2 =>
            if contByte c2 then
              match rest2 with
              | [] => [repChar]
              | c3 :: rest3 =>
                if contByte c3 then
                  Char.ofNat ((b - 0xF0) * 0x40000 + (c1 - 0x80) * 0x1000
                      + (c2 - 0x80) * 0x40 + (c3 - 0x80))
                    :: utf8DecodeReplace rest3
                else repChar :: utf8DecodeReplace (c3 :: rest3)
            else repChar :: utf8DecodeReplace (c2 :: rest2)
        else repChar :: utf8DecodeReplace (c1 :: rest1)
    else repChar :: utf8DecodeReplace rest
termination_by l => l.length
decreasing_by all_goals simp <;> omega

/-- What `on_connect` asks of the client object. -/
inductive ClientAction where
  | subscribe (filter : String)

/-- The `on_connect` callback: `state.set_connected(rc == 0)`, then on
`rc == 0` subscribe to `"#"`, otherwise record
`f"MQTT connect rc={rc}"`. -/
def on_connect (rc : Int) (hst : Heap × MqttState) :
    (Heap × MqttState) × List ClientAction :=
  let s1 := MqttState.set_connected (decide (rc = 0)) hst
  if rc = 0 then (s1, [ClientAction.subscribe "#"])
  else (MqttState.set_error ("MQTT connect rc=" ++ toString rc) s1, [])

/-- The `on_message` callback:
`payload = msg.payload.decode("utf-8", errors="replace")` then
`state.put(msg.topic, payload)`. -/
def on_message (now : Nat) (topic : String) (payload : List Nat)
    (hst : Heap × MqttState) : Heap × MqttState :=
  MqttState.put now topic (String.mk (utf8DecodeReplace payload)) hst

theorem updAt_self {V : Type u} (f : Nat → V) (a : Nat) (v : V) :
    updAt f a v a = v := by
  simp [updAt]

theorem updAt_ne {V : Type u} (f : Nat → V) (a : Nat) (v : V) (a' : Nat)
    (h : a' ≠ a) : updAt f a v a' = f a' := by
  simp [updAt, h]

theorem applyOp_dataAddr (op : StoreOp) (hst : Heap × MqttState) :
    (applyOp op hst).2.dataAddr = hst.2.dataAddr := by
  obtain ⟨h, st⟩ := hst
  cases op <;> rfl

theorem applyOp_tsAddr (op : StoreOp) (hst : Heap × MqttState) :
    (applyOp op hst).2.tsAddr = hst.2.tsAddr := by
  obtain ⟨h, st⟩ := hst
  cases op <;> rfl

theorem applyOp_next (op : StoreOp) (hst : Heap × MqttState) :
    (applyOp op hst).1.next = hst.1.next := by
  obtain ⟨h, st⟩ := hst
  cases op <;> rfl

theorem applyOp_payload_frame (op : StoreOp) (hst : Heap × MqttState) (a : Nat)
    (ha : a ≠ hst.2.dataAddr) :
    (applyOp op hst).1.payloadH a = hst.1.payloadH a := by
  obtain ⟨h, st⟩ := hst
  cases op with
  | put now t p => exact updAt_ne _ _ _ _ ha
  | set_connected v => rfl
  | set_error e => rfl

theorem applyOp_ts_frame (op : StoreOp) (hst : Heap × MqttState) (a : Nat)
    (ha : a ≠ hst.2.tsAddr) :
    (applyOp op hst).1.tsH a = hst.1.tsH a := by
  obtain ⟨h, st⟩ := hst
  cases op with
  | put now t p => exact updAt_ne _ _ _ _ ha
  | set_connected v => rfl
  | set_error e => rfl

theorem applyOps_payload_frame (ops : List StoreOp) (hst : Heap × MqttState)
    (a : Nat) (ha : a ≠ hst.2.dataAddr) :
    (applyOps ops hst).1.payloadH a = hst.1.payloadH a := by
  induction ops generalizing hst with
  | nil => rfl
  | cons op ops ih =>
    have hrec := ih (applyOp op hst)
      (by rw [applyOp_dataAddr]; exact ha)
    calc (applyOps (op :: ops) hst).1.payloadH a
        = (applyOps ops (applyOp op hst)).1.payloadH a := rfl
      _ = (applyOp op hst).1.payloadH a := hrec
      _ = hst.1.payloadH a := applyOp_payload_frame op hst a ha

theorem applyOps_ts_frame (ops : List StoreOp) (hst : Heap × MqttState)
    (a : Nat) (ha : a ≠ hst.2.tsAddr) :
    (applyOps ops hst).1.tsH a = hst.1.tsH a := by
  induction ops generalizing hst with
  | nil => rfl
  | cons op ops ih =>
    have hrec := ih (applyOp op hst)
      (by rw [applyOp_tsAddr]; exact ha)
    calc (applyOps (op :: ops) hst).1.tsH a
        = (applyOps ops (applyOp op hst)).1.tsH a := rfl
      _ = (applyOp op hst).1.tsH a := hrec
      _ = hst.1.tsH a := applyOp_ts_frame op hst a ha

theorem dictGet_update_self {V : Type u} (d : List (String × V)) (k : String)
    (v : V) : dictGet (dictUpdate d k v) k = some v := by
  induction d with
  | nil => simp [dictUpdate, dictGet]
  | cons p rest ih =>
    obtain ⟨k', v'⟩ := p
    by_cases h : k' = k <;> simp [dictUpdate, dictGet, h, ih]

theorem dictGet_update_ne {V : Type u} (d : List (String × V)) (k : String)
    (v : V) (k' : String) (h : k' ≠ k) :
    dictGet (dictUpdate d k v) k' = dictGet d k' := by
  have hkk : ¬ k = k' := fun hh => h hh.symm
  induction d with
  | nil =>
    simp [dictUpdate, dictGet, hkk]
  | cons p rest ih =>
    obtain ⟨a, b⟩ := p
    by_cases hak : a = k
    · subst hak
      simp [dictUpdate, dictGet, hkk]
    · simp [dictUpdate, dictGet, hak, ih]

theorem dictKeys_update {V : Type u} (d : List (String × V)) (k : String)
    (v : V) :
    dictKeys (dictUpdate d k v) =
      if k ∈ dictKeys d then dictKeys d else dictKeys d ++ [k] := by
  induction d with
  | nil => simp [dictUpdate, dictKeys]
  | cons p rest ih =>
    obtain ⟨a, b⟩ := p
    by_cases hak : a = k
    · subst hak
      simp [dictUpdate, dictKeys]
    · have hka : ¬ k = a := fun hh => hak hh.symm
      simp only [dictUpdate, if_neg hak, dictKeys, List.map_cons] at ih ⊢
      rw [ih]
      by_cases hmem : k ∈ List.map Prod.fst rest
      · simp [hmem, hka]
      · simp [hmem, hka]

theorem dictKeys_update_nodup {V : Type u} (d : List (String × V)) (k : String)
    (v : V) (h : (dictKeys d).Nodup) : (dictKeys (dictUpdate d k v)).Nodup := by
  rw [dictKeys_update]
  by_cases hmem : k ∈ dictKeys d
  · simpa [hmem] using h
  · simp [hmem, List.nodup_append, h]

/-- C1: after `s = store.snapshot()`, any sequence of later `put`,
`set_connected` and `set_error` calls leaves every field of `s` unchanged:
the two dict copies still hold exactly the store's contents from snapshot
time, and the copied `connected` / `last_error` scalars equal the values at
snapshot time. -/
theorem snapshot_independent_of_later_ops (h : Heap) (st : MqttState)
    (ops : List StoreOp) (hwf : wfState (h, st)) :
    snapData (applyOps ops ((MqttState.snapshot (h, st)).1, st)).1
        (MqttState.snapshot (h, st)).2 = storeData (h, st) ∧
    snapTs (applyOps ops ((MqttState.snapshot (h, st)).1, st)).1
        (MqttState.snapshot (h, st)).2 = storeTs (h, st) ∧
    (MqttState.snapshot (h, st)).2.connected = st.connected ∧
    (MqttState.snapshot (h, st)).2.lastError = st.lastError := by
  obtain ⟨hd0, ht0⟩ := hwf
  have hd : st.dataAddr < h.next := hd0
  have ht : st.tsAddr < h.next := ht0
  refine ⟨?_, ?_, rfl, rfl⟩
  · have hfr := applyOps_payload_frame ops ((MqttState.snapshot (h, st)).1, st)
      h.next (ne_of_gt hd)
    have haddr : (MqttState.snapshot (h, st)).2.dataAddr = h.next := rfl
    simp only [snapData, storeData, haddr]
    rw [hfr]
    exact updAt_self _ _ _
  · have hfr := applyOps_ts_frame ops ((MqttState.snapshot (h, st)).1, st)
      (h.next + 1) (show h.next + 1 ≠ st.tsAddr by omega)
    have haddr : (MqttState.snapshot (h, st)).2.tsAddr = h.next + 1 := rfl
    simp only [snapTs, storeTs, haddr]
    rw [hfr]
    exact updAt_self _ _ _

/-- Witness for C1 at a concrete store and a concrete later `put`. -/
theorem snapshot_independent_witness :
    wfState (demoHeap, demoState) ∧
    (snapData (applyOps [StoreOp.put 5 "t" "v"]
          ((MqttState.snapshot (demoHeap, demoState)).1, demoState)).1
        (MqttState.snapshot (demoHeap, demoState)).2
        = storeData (demoHeap, demoState) ∧
     snapTs (applyOps [StoreOp.put 5 "t" "v"]
          ((MqttState.snapshot (demoHeap, demoState)).1, demoState)).1
        (MqttState.snapshot (demoHeap, demoState)).2
        = storeTs (demoHeap, demoState) ∧
     (MqttState.snapshot (demoHeap, demoState)).2.connected
        = demoState.connected ∧
     (MqttState.snapshot (demoHeap, demoState)).2.lastError
        = demoState.lastError) := by
  have hwf : wfState (demoHeap, demoState) := by
    constructor <;> simp [wfState, demoHeap, demoState]
  exact ⟨hwf,
    snapshot_independent_of_later_ops demoHeap demoState
      [StoreOp.put 5 "t" "v"] hwf⟩

theorem storeData_put (now : Nat) (t p : String) (hst : Heap × MqttState) :
    storeData (MqttState.put now t p hst) = dictUpdate (storeData hst) t p := by
  obtain ⟨h, st⟩ := hst
  simp [storeData, MqttState.put, updAt]

theorem storeTs_put (now : Nat) (t p : String) (hst : Heap × MqttState) :
    storeTs (MqttState.put now t p hst) = dictUpdate (storeTs hst) t now := by
  obtain ⟨h, st⟩ := hst
  simp [storeTs, MqttState.put, updAt]

theorem storeData_applyPuts (ps : List (Nat × String × String))
    (hst : Heap × MqttState) (t : String) :
    dictGet (storeData (applyPuts ps hst)) t =
      match lastPutEntry t ps with
      | some q => some q.2.2
      | none => dictGet (storeData hst) t := by
  induction ps generalizing hst with
  | nil => rfl
  | cons q ps ih =>
    have hstep : applyPuts (q :: ps) hst
        = applyPuts ps (MqttState.put q.1 q.2.1 q.2.2 hst) := rfl
    rw [hstep, ih]
    cases hlast : lastPutEntry t ps with
    | some r => simp [lastPutEntry, hlast]
    | none =>
      simp only [lastPutEntry, hlast]
      by_cases hq : q.2.1 = t
      · simp only [if_pos hq]
        rw [storeData_put, ← hq]
        exact dictGet_update_self _ _ _
      · simp only [if_neg hq]
        rw [storeData_put]
        exact dictGet_update_ne _ _ _ _ (fun hh => hq hh.symm)

theorem storeTs_applyPuts (ps : List (Nat × String × String))
    (hst : Heap × MqttState) (t : String) :
    dictGet (storeTs (applyPuts ps hst)) t =
      match lastPutEntry t ps with
      | some q => some q.1
      | none => dictGet (storeTs hst) t := by
  induction ps generalizing hst with
  | nil => rfl
  | cons q ps ih =>
    have hstep : applyPuts (q :: ps) hst
        = applyPuts ps (MqttState.put q.1 q.2.1 q.2.2 hst) := rfl
    rw [hstep, ih]
    cases hlast : lastPutEntry t ps with
    | some r => simp [lastPutEntry, hlast]
    | none =>
      simp only [lastPutEntry, hlast]
      by_cases hq : q.2.1 = t
      · simp only [if_pos hq]
        rw [storeTs_put, ← hq]
        exact dictGet_update_self _ _ _
      · simp only [if_neg hq]
        rw [storeTs_put]
        exact dictGet_update_ne _ _ _ _ (fun hh => hq hh.symm)

theorem storeData_applyPuts_nodup (ps : List (Nat × String × String))
    (hst : Heap × MqttState) (h : (dictKeys (storeData hst)).Nodup) :
    (dictKeys (storeData (applyPuts ps hst))).Nodup := by
  induction ps generalizing hst with
  | nil => exact h
  | cons q ps ih =>
    have hstep : applyPuts (q :: ps) hst
        = applyPuts ps (MqttState.put q.1 q.2.1 q.2.2 hst) := rfl
    rw [hstep]
    apply ih
    rw [storeData_put]
    exact dictKeys_update_nodup _ _ _ h

theorem snapData_snapshot (hst : Heap × MqttState) :
    snapData (MqttState.snapshot hst).1 (MqttState.snapshot hst).2
      = storeData hst := by
  obtain ⟨h, st⟩ := hst
  simp [MqttState.snapshot, snapData, storeData, updAt]

theorem snapTs_snapshot (hst : Heap × MqttState) :
    snapTs (MqttState.snapshot hst).1 (MqttState.snapshot hst).2
      = storeTs hst := by
  obtain ⟨h, st⟩ := hst
  simp [MqttState.snapshot, snapTs, storeTs, updAt]

/-- C3: the store is last-write-wins with at most one record per topic.
After any sequence of `put` calls, looking up a topic in the payload dict
(resp. the timestamp dict) yields the payload (resp. timestamp) of the most
recent `put` on that topic, or the pre-existing entry when the sequence
never wrote that topic; the key list stays duplicate-free; and in the
concrete scenario `put("t","1"); put("t","2")` from a fresh store, both the
store contents and a subsequent `snapshot`'s copy are exactly
`[("t","2")]`, with no trace of `"1"`. -/
theorem store_last_write_wins (hst : Heap × MqttState)
    (ps : List (Nat × String × String)) (t : String)
    (hnodup : (dictKeys (storeData hst)).Nodup) :
    (dictGet (storeData (applyPuts ps hst)) t =
      match lastPutEntry t ps with
      | some q => some q.2.2
      | none => dictGet (storeData hst) t) ∧
    (dictGet (storeTs (applyPuts ps hst)) t =
      match lastPutEntry t ps with
      | some q => some q.1
      | none => dictGet (storeTs hst) t) ∧
    (dictKeys (storeData (applyPuts ps hst))).Nodup ∧
    (∀ (h0 : Heap) (n1 n2 : Nat),
      storeData (applyPuts [(n1, "t", "1"), (n2, "t", "2")]
        (MqttState.init h0)) = [("t", "2")] ∧
      snapData
        (MqttState.snapshot (applyPuts [(n1, "t", "1"), (n2, "t", "2")]
          (MqttState.init h0))).1
        (MqttState.snapshot (applyPuts [(n1, "t", "1"), (n2, "t", "2")]
          (MqttState.init h0))).2 = [("t", "2")]) := by
  refine ⟨storeData_applyPuts ps hst t, storeTs_applyPuts ps hst t,
    storeData_applyPuts_nodup ps hst hnodup, ?_⟩
  intro h0 n1 n2
  have hdata : storeData (applyPuts [(n1, "t", "1"), (n2, "t", "2")]
      (MqttState.init h0)) = [("t", "2")] := by
    simp [applyPuts, MqttState.init, MqttState.put, storeData, updAt,
      dictUpdate]
  refine ⟨hdata, ?_⟩
  rw [snapData_snapshot]
  exact hdata

/-- Witness for C3 at a concrete store, put sequence and topic. -/
theorem store_last_write_wins_witness :
    (dictKeys (storeData (demoHeap, demoState))).Nodup ∧
    ((dictGet (storeData (applyPuts [(3, "t", "1"), (4, "t", "2")]
        (demoHeap, demoState))) "t" =
      match lastPutEntry "t" [(3, "t", "1"), (4, "t", "2")] with
      | some q => some q.2.2
      | none => dictGet (storeData (demoHeap, demoState)) "t") ∧
    (dictGet (storeTs (applyPuts [(3, "t", "1"), (4, "t", "2")]
        (demoHeap, demoState))) "t" =
      match lastPutEntry "t" [(3, "t", "1"), (4, "t", "2")] with
      | some q => some q.1
      | none => dictGet (storeTs (demoHeap, demoState)) "t") ∧
    (dictKeys (storeData (applyPuts [(3, "t", "1"), (4, "t", "2")]
        (demoHeap, demoState)))).Nodup ∧
    (∀ (h0 : Heap) (n1 n2 : Nat),
      storeData (applyPuts [(n1, "t", "1"), (n2, "t", "2")]
        (MqttState.init h0)) = [("t", "2")] ∧
      snapData
        (MqttState.snapshot (applyPuts [(n1, "t", "1"), (n2, "t", "2")]
          (MqttState.init h0))).1
        (MqttState.snapshot (applyPuts [(n1, "t", "1"), (n2, "t", "2")]
          (MqttState.init h0))).2 = [("t", "2")])) := by
  have hnodup : (dictKeys (storeData (demoHeap, demoState))).Nodup := by
    simp [dictKeys, storeData, demoHeap, demoState]
  exact ⟨hnodup,
    store_last_write_wins (demoHeap, demoState)
      [(3, "t", "1"), (4, "t", "2")] "t" hnodup⟩

/-- C8: with every method body holding the store's single lock, a
concurrent execution of one writer doing `put` calls and one reader doing a
`snapshot` interleaves whole calls, so the snapshot taken after the first
`k` puts returns, for any topic, either the pre-existing record or the
payload–timestamp pair written by one single `put` (the latest among the
first `k` on that topic) — never the payload of one `put` paired with the
timestamp of another. -/
theorem snapshot_atomic_record (hst : Heap × MqttState)
    (ps : List (Nat × String × String)) (t : String) (k : Nat)
    (hk : k ≤ ps.length) :
    (dictGet (snapData
        (MqttState.snapshot (applyPuts (ps.take k) hst)).1
        (MqttState.snapshot (applyPuts (ps.take k) hst)).2) t,
     dictGet (snapTs
        (MqttState.snapshot (applyPuts (ps.take k) hst)).1
        (MqttState.snapshot (applyPuts (ps.take k) hst)).2) t) =
      match lastPutEntry t (ps.take k) with
      | some q => (some q.2.2, some q.1)
      | none => (dictGet (storeData hst) t, dictGet (storeTs hst) t) := by
  rw [snapData_snapshot, snapTs_snapshot,
    storeData_applyPuts, storeTs_applyPuts]
  cases hlast : lastPutEntry t (ps.take k) <;> simp [hlast]

/-- Witness for C8: the reader interleaves after the first of two puts. -/
theorem snapshot_atomic_record_witness :
    1 ≤ ([(3, "t", "1"), (4, "t", "2")] :
        List (Nat × String × String)).length ∧
    (dictGet (snapData
        (MqttState.snapshot (applyPuts
          (([(3, "t", "1"), (4, "t", "2")] :
            List (Nat × String × String)).take 1)
          (demoHeap, demoState))).1
        (MqttState.snapshot (applyPuts
          (([(3, "t", "1"), (4, "t", "2")] :
            List (Nat × String × String)).take 1)
          (demoHeap, demoState))).2) "t",
     dictGet (snapTs
        (MqttState.snapshot (applyPuts
          (([(3, "t", "1"), (4, "t", "2")] :
            List (Nat × String × String)).take 1)
          (demoHeap, demoState))).1
        (MqttState.snapshot (applyPuts
          (([(3, "t", "1"), (4, "t", "2")] :
            List (Nat × String × String)).take 1)
          (demoHeap, demoState))).2) "t") =
      match lastPutEntry "t"
          (([(3, "t", "1"), (4, "t", "2")] :
            List (Nat × String × String)).take 1) with
      | some q => (some q.2.2, some q.1)
      | none => (dictGet (storeData (demoHeap, demoState)) "t",
                 dictGet (storeTs (demoHeap, demoState)) "t") :=
  ⟨by decide,
   snapshot_atomic_record (demoHeap, demoState)
     [(3, "t", "1"), (4, "t", "2")] "t" 1 (by decide)⟩

theorem storeInv_init (h : Heap) : storeInv (MqttState.init h) := by
  refine ⟨⟨?_, ?_⟩, ?_⟩ <;>
    simp [MqttState.init, wfState, storeData, storeTs, dictKeys, updAt]

theorem storeInv_applyOpFull (op : StoreOpFull) (hst : Heap × MqttState)
    (hinv : storeInv hst) : storeInv (applyOpFull op hst) := by
  obtain ⟨⟨hd, ht⟩, hkeys⟩ := hinv
  obtain ⟨h, st⟩ := hst
  have hd' : st.dataAddr < h.next := hd
  have ht' : st.tsAddr < h.next := ht
  cases op with
  | put now t p =>
    refine ⟨⟨hd', ht'⟩, ?_⟩
    show dictKeys (storeData (MqttState.put now t p (h, st)))
        = dictKeys (storeTs (MqttState.put now t p (h, st)))
    rw [storeData_put, storeTs_put, dictKeys_update, dictKeys_update, hkeys]
  | set_connected v => exact ⟨⟨hd', ht'⟩, hkeys⟩
  | set_error e => exact ⟨⟨hd', ht'⟩, hkeys⟩
  | snapshot =>
    refine ⟨⟨?_, ?_⟩, ?_⟩
    · show st.dataAddr < h.next + 2
      omega
    · show st.tsAddr < h.next + 2
      omega
    · show dictKeys (updAt h.payloadH h.next (h.payloadH st.dataAddr)
            st.dataAddr)
          = dictKeys (updAt h.tsH (h.next + 1) (h.tsH st.tsAddr) st.tsAddr)
      rw [updAt_ne _ _ _ _ (ne_of_lt hd'), updAt_ne _ _ _ _ (by omega)]
      exact hkeys

theorem storeInv_applyOpsFull (ops : List StoreOpFull)
    (hst : Heap × MqttState) (hinv : storeInv hst) :
    storeInv (applyOpsFull ops hst) := by
  induction ops generalizing hst with
  | nil => exact hinv
  | cons op ops ih => exact ih (applyOpFull op hst) (storeInv_applyOpFull op hst hinv)

/-- C9: starting from the fresh store built by `__init__`, every sequence
of store calls (`put`, `set_connected`, `set_error`, `snapshot`) keeps the
payload dict `data` and the timestamp dict `last_ts` on exactly the same
key list: every topic with a stored payload has a receipt timestamp and
vice versa. -/
theorem data_ts_keys_agree (h : Heap) (ops : List StoreOpFull) :
    dictKeys (storeData (applyOpsFull ops (MqttState.init h)))
      = dictKeys (storeTs (applyOpsFull ops (MqttState.init h))) :=
  (storeInv_applyOpsFull ops (MqttState.init h) (storeInv_init h)).2

theorem ratTrunc_eq_floor_ceil (q : ℚ) :
    ratTrunc q = if 0 ≤ q then ⌊q⌋ else ⌈q⌉ := by
  rw [ratTrunc]
  rcases le_or_lt 0 q with h | h
  · rw [if_pos h, if_pos h]
    rfl
  · rw [if_neg (not_le.mpr h), if_neg (not_le.mpr h),
      show ((-q).floor : ℤ) = ⌊-q⌋ from rfl, Int.floor_neg, neg_neg]

theorem to_float_twelve_point_five :
    to_float (some "12.5") = some (25/2 : ℚ) := by
  have h1 : to_float (some "12.5")
      = some ((12 : ℚ) + (5 : ℚ) / (10 : ℚ) ^ (1 : Nat)) := rfl
  rw [h1]
  norm_num

theorem to_int_twelve : to_int (some "12.5") = some 12 := by
  rw [to_int, to_float_twelve_point_five, Option.map_some',
    ratTrunc_eq_floor_ceil, if_pos (by norm_num)]
  norm_num

/-- C4 is false on the code: `to_float` is plain Python `float(x)`, which
rejects a comma decimal separator, so `to_float("12,5")` is `None`, not
`12.5`. -/
theorem parse_comma_counterexample :
    to_float (some "12,5") = none ∧
    to_float (some "12,5") ≠ some (25/2 : ℚ) := by
  refine ⟨rfl, ?_⟩
  rw [show to_float (some "12,5") = none from rfl]
  simp

/-- C4 (amended): the numeric payload parser accepts only `.` as the
decimal separator: `to_float("12.5")` yields `12.5`, while `to_float("12,5")`
yields the missing marker `None`. -/
theorem parse_dot_only :
    to_float (some "12.5") = some (25/2 : ℚ) ∧
    to_float (some "12,5") = none :=
  ⟨to_float_twelve_point_five, rfl⟩

/-- C6: on any input where the numeric parse fails the parser returns the
explicit missing marker `None` — `to_float` is a total function into an
option type, so no exception reaches the caller, and the failing inputs
`"abc"` and `None` both map to `none`, never to `0`. -/
theorem parse_failure_yields_none :
    to_float (some "abc") = none ∧
    to_float none = none ∧
    to_float (some "abc") ≠ some 0 ∧
    ∀ x : Option String, to_float x = none ∨ ∃ q : ℚ, to_float x = some q := by
  refine ⟨rfl, rfl, ?_, ?_⟩
  · rw [show to_float (some "abc") = none from rfl]
    simp
  · intro x
    cases hx : to_float x with
    | none => exact Or.inl rfl
    | some q => exact Or.inr ⟨q, rfl⟩

/-- C10: `to_int` is `int(float(x))`: whenever the float parse yields `q`,
`to_int` yields `q` truncated toward zero (floor for nonnegative, ceiling
for negative); whenever the float parse fails, `to_int` is `None`; in
particular `"12.5"` gives `12`, and a fractional luminosity payload on a
candidate topic is charted as its truncated integer value. -/
theorem to_int_truncation (s : String) (q : ℚ)
    (hq : to_float (some s) = some q) :
    to_int (some s) = some (ratTrunc q) ∧
    ratTrunc q = (if 0 ≤ q then ⌊q⌋ else ⌈q⌉) ∧
    (∀ x : Option String, to_float x = none → to_int x = none) ∧
    to_int (some "12.5") = some 12 ∧
    luminosityFromTopics [("esp32_1/ldr", "12.5")] = some 12 := by
  refine ⟨?_, ratTrunc_eq_floor_ceil q, ?_, to_int_twelve, ?_⟩
  · rw [to_int, hq, Option.map_some']
  · intro x hx
    rw [to_int, hx, Option.map_none']
  · rw [show luminosityFromTopics [("esp32_1/ldr", "12.5")]
        = to_int (some "12.5") from rfl]
    exact to_int_twelve

/-- Witness for C10 at the concrete payload `"12.5"`. -/
theorem to_int_truncation_witness :
    to_float (some "12.5") = some (25/2 : ℚ) ∧
    (to_int (some "12.5") = some (ratTrunc (25/2 : ℚ)) ∧
     ratTrunc (25/2 : ℚ) = (if 0 ≤ (25/2 : ℚ) then ⌊(25/2 : ℚ)⌋
        else ⌈(25/2 : ℚ)⌉) ∧
     (∀ x : Option String, to_float x = none → to_int x = none) ∧
     to_int (some "12.5") = some 12 ∧
     luminosityFromTopics [("esp32_1/ldr", "12.5")] = some 12) :=
  ⟨to_float_twelve_point_five,
   to_int_truncation "12.5" (25/2) to_float_twelve_point_five⟩

theorem takeLast_append_right {α : Type u} (n : Nat) (c d : List α)
    (h : n ≤ d.length) : takeLast n (c ++ d) = takeLast n d := by
  rw [takeLast, takeLast, List.length_append,
    show c.length + d.length - n = c.length + (d.length - n) by omega]
  exact List.drop_append _

theorem takeLast_takeLast_append {α : Type u} (n : Nat) (a b : List α) :
    takeLast n (takeLast n a ++ b) = takeLast n (a ++ b) := by
  rcases le_or_lt a.length n with h | h
  · have ha : takeLast n a = a := by
      rw [takeLast, Nat.sub_eq_zero_of_le h, List.drop_zero]
    rw [ha]
  · have h1 : takeLast n (a ++ b)
        = takeLast n (a.drop (a.length - n) ++ b) := by
      conv_lhs => rw [← List.take_append_drop (a.length - n) a]
      rw [List.append_assoc]
      exact takeLast_append_right n _ _
        (by rw [List.length_append, List.length_drop]; omega)
    rw [show takeLast n a = a.drop (a.length - n) from rfl, h1]

set_option maxRecDepth 4000 in
theorem foldl_appendHistory_cons (h0 : List HistoryPoint) (p : HistoryPoint)
    (ps : List HistoryPoint) :
    (p :: ps).foldl appendHistory h0
      = takeLast MAX_POINTS (h0 ++ p :: ps) := by
  induction ps generalizing h0 p with
  | nil => rw [List.foldl_cons, List.foldl_nil, appendHistory]
  | cons q ps ih =>
    rw [List.foldl_cons, ih, appendHistory, takeLast_takeLast_append,
      List.append_assoc]
    simp

/-- C2: starting from any history, feeding `MAX_POINTS + k` points
(`k ≥ 1`) one at a time through append-then-trim (`history.append(...)`
followed by `history[-MAX_POINTS:]`) leaves exactly the last `MAX_POINTS`
points inserted, in insertion order; and one append-and-trim step never
leaves more than `MAX_POINTS` points, so the history never exceeds its
capacity. -/
theorem history_fifo_eviction (h0 : List HistoryPoint)
    (ps : List HistoryPoint) (k : Nat) (hk : 1 ≤ k)
    (hlen : ps.length = MAX_POINTS + k) :
    ps.foldl appendHistory h0 = takeLast MAX_POINTS ps ∧
    takeLast MAX_POINTS ps = ps.drop k ∧
    (ps.foldl appendHistory h0).length = MAX_POINTS ∧
    ∀ (hist : List HistoryPoint) (p : HistoryPoint),
      (appendHistory hist p).length ≤ MAX_POINTS := by
  have hdrop : takeLast MAX_POINTS ps = ps.drop k := by
    rw [takeLast, hlen, show MAX_POINTS + k - MAX_POINTS = k by omega]
  cases ps with
  | nil =>
    simp only [List.length_nil] at hlen
    omega
  | cons p ps' =>
    have hfold : (p :: ps').foldl appendHistory h0
        = takeLast MAX_POINTS (p :: ps') := by
      rw [foldl_appendHistory_cons]
      exact takeLast_append_right MAX_POINTS h0 (p :: ps') (by omega)
    refine ⟨hfold, hdrop, ?_, ?_⟩
    · rw [hfold, hdrop, List.length_drop]
      omega
    · intro hist pt
      rw [appendHistory, takeLast, List.length_drop, List.length_append]
      omega

/-- Witness for C2: 201 points through an initially empty history. -/
theorem history_fifo_eviction_witness :
    (1 ≤ 1 ∧ (List.replicate (MAX_POINTS + 1)
        (⟨0, none, none⟩ : HistoryPoint)).length = MAX_POINTS + 1) ∧
    ((List.replicate (MAX_POINTS + 1)
        (⟨0, none, none⟩ : HistoryPoint)).foldl appendHistory []
      = takeLast MAX_POINTS (List.replicate (MAX_POINTS + 1)
        (⟨0, none, none⟩ : HistoryPoint)) ∧
     takeLast MAX_POINTS (List.replicate (MAX_POINTS + 1)
        (⟨0, none, none⟩ : HistoryPoint))
      = (List.replicate (MAX_POINTS + 1)
        (⟨0, none, none⟩ : HistoryPoint)).drop 1 ∧
     ((List.replicate (MAX_POINTS + 1)
        (⟨0, none, none⟩ : HistoryPoint)).foldl appendHistory []).length
      = MAX_POINTS ∧
     ∀ (hist : List HistoryPoint) (p : HistoryPoint),
       (appendHistory hist p).length ≤ MAX_POINTS) := by
  have h1 : (1 : Nat) ≤ 1 := le_refl 1
  have h2 : (List.replicate (MAX_POINTS + 1)
      (⟨0, none, none⟩ : HistoryPoint)).length = MAX_POINTS + 1 := by
    simp
  exact ⟨⟨h1, h2⟩, history_fifo_eviction [] _ 1 h1 h2⟩

/-- C5 is false on the code: on a successful connect (`rc = 0`) the
callback sets `connected` but does not clear `last_error`; a store that
had `last_error = "boom"` still has it after `on_connect(..., rc=0)`. -/
theorem on_connect_keeps_error_counterexample :
    ((on_connect 0 (demoHeap,
        ⟨0, 1, false, some "boom"⟩)).1.2.lastError = some "boom") ∧
    ¬ ((on_connect 0 (demoHeap,
        ⟨0, 1, false, some "boom"⟩)).1.2.lastError = none) := by
  refine ⟨rfl, ?_⟩
  rw [show (on_connect 0 (demoHeap,
      ⟨0, 1, false, some "boom"⟩)).1.2.lastError = some "boom" from rfl]
  simp

/-- C5 (amended): on a successful connect (`rc = 0`) the callback sets the
store's `connected` flag to true and subscribes to all topics (`"#"`), but
leaves `last_error` unchanged (it does not clear a previously recorded
error) and leaves the heap untouched — for every prior store state. -/
theorem on_connect_success_sets_connected (hst : Heap × MqttState) :
    (on_connect 0 hst).1.2.connected = true ∧
    (on_connect 0 hst).1.2.lastError = hst.2.lastError ∧
    (on_connect 0 hst).2 = [ClientAction.subscribe "#"] ∧
    (on_connect 0 hst).1.1 = hst.1 := by
  obtain ⟨h, st⟩ := hst
  exact ⟨rfl, rfl, rfl, rfl⟩

/-- C7: `on_message` decodes the payload bytes with the total
replacement-policy UTF-8 decoder — which never fails, turning invalid
bytes into U+FFFD as the concrete byte strings show — and stores the
decoded text verbatim under the topic via `put`: afterwards the store maps
`topic` to exactly the decoded string. -/
theorem on_message_decode_replace_put (now : Nat) (topic : String)
    (payload : List Nat) (hst : Heap × MqttState) :
    on_message now topic payload hst
      = MqttState.put now topic (String.mk (utf8DecodeReplace payload)) hst ∧
    dictGet (storeData (on_message now topic payload hst)) topic
      = some (String.mk (utf8DecodeReplace payload)) ∧
    utf8DecodeReplace [0x61, 0xFF, 0x62] = ['a', repChar, 'b'] ∧
    utf8DecodeReplace [0xC3, 0xA9] = ['é'] ∧
    utf8DecodeReplace [0xE2, 0x82] = [repChar] := by
  refine ⟨rfl, ?_, ?_, ?_, ?_⟩
  · rw [on_message, storeData_put]
    exact dictGet_update_self _ _ _
  · simp [utf8DecodeReplace, repChar, contByte]
  · simp [utf8DecodeReplace, repChar, contByte]
  · simp [utf8DecodeReplace, repChar, contByte]
